import Mathlib

/-
Verification of the geometry core of `Cura/util/printableObject.py`
(class `printableObject`): transform mutators, the derived-geometry
recompute pipeline (`processMatrix`), object copying, and the vertex
deduplication / index builder (`getVertexIndexList`).

Modelling conventions, used throughout:
* Python floats are modelled by exact rationals (`ℚ`).
* `numpy` 3x3 matrices are `Mat3`; numpy's `matrix * matrix` is `Mat3.mul`
  and a mesh vertex is transformed as a row vector times the matrix.
* `math.sqrt` is modelled by `ratSqrt`, a deterministic rational
  square-root approximation which is exact on perfect squares (all claim
  evaluations only exercise it on perfect squares).  Comparisons of the
  form `norm(v) < t` with `t > 0` are translated to the exactly
  equivalent `normSq v < t^2` where noted.
* The trigonometric calls of `layFlat` appear only in the combinations
  `cos/sin (-atan2 y x)` and `cos/sin (±asin d)`; those combinations have
  the exact algebraic values `x/r`, `-y/r` (with `r = sqrt (x^2+y^2)`),
  `sqrt (1-d^2)` and `±d`, which is how they are embedded.
* The external `Cura.util.polygon` module and `Cura.util.mesh.Mesh` are
  not part of the verified source tree; they are modelled from the spec
  (see the individual doc comments).
-/

namespace Cura

/-- A 3D point/vector with rational coordinates (models a numpy float64
triple). -/
@[ext] structure Vec3 where
  x : ℚ
  y : ℚ
  z : ℚ
deriving DecidableEq

instance : Sub Vec3 := ⟨fun a b => ⟨a.x - b.x, a.y - b.y, a.z - b.z⟩⟩

/-- Component of a `Vec3` selected by an axis index 0/1/2, mirroring
Python indexing `v[axis]`. -/
def Vec3.comp (v : Vec3) (ax : Fin 3) : ℚ :=
  if ax = 0 then v.x else if ax = 1 then v.y else v.z

/-- Squared Euclidean norm of a `Vec3`. -/
def normSq (v : Vec3) : ℚ := v.x ^ 2 + v.y ^ 2 + v.z ^ 2

/-- A 3x3 matrix in row-major order (models `numpy.matrix` of shape 3x3):
`xy` is row 0, column 1, etc. -/
@[ext] structure Mat3 where
  xx : ℚ
  xy : ℚ
  xz : ℚ
  yx : ℚ
  yy : ℚ
  yz : ℚ
  zx : ℚ
  zy : ℚ
  zz : ℚ
deriving DecidableEq

/-- The identity matrix, the initial `self._matrix`. -/
def Mat3.id : Mat3 := ⟨1, 0, 0, 0, 1, 0, 0, 0, 1⟩

/-- Matrix product, modelling `numpy.matrix` multiplication `A * B`. -/
def Mat3.mul (a b : Mat3) : Mat3 :=
  ⟨a.xx * b.xx + a.xy * b.yx + a.xz * b.zx,
   a.xx * b.xy + a.xy * b.yy + a.xz * b.zy,
   a.xx * b.xz + a.xy * b.yz + a.xz * b.zz,
   a.yx * b.xx + a.yy * b.yx + a.yz * b.zx,
   a.yx * b.xy + a.yy * b.yy + a.yz * b.zy,
   a.yx * b.xz + a.yy * b.yz + a.yz * b.zz,
   a.zx * b.xx + a.zy * b.yx + a.zz * b.zx,
   a.zx * b.xy + a.zy * b.yy + a.zz * b.zy,
   a.zx * b.xz + a.zy * b.yz + a.zz * b.zz⟩

/-- Row vector times matrix, the way numpy transforms a vertex
(`vertexes * matrix`). -/
def mulVec (v : Vec3) (m : Mat3) : Vec3 :=
  ⟨v.x * m.xx + v.y * m.yx + v.z * m.zx,
   v.x * m.xy + v.y * m.yy + v.z * m.zy,
   v.x * m.xz + v.y * m.yz + v.z * m.zz⟩

/-- Newton iteration for the integer square root, driven by explicit
fuel so that it reduces structurally (each step strictly decreases the
guess, so fuel `n` always suffices). -/
def sqrtIter : ℕ → ℕ → ℕ → ℕ
  | 0, _, guess => guess
  | fuel + 1, n, guess =>
    let next := (guess + n / guess) / 2
    if next < guess then sqrtIter fuel n next else guess

/-- Integer square root (floor), kernel-evaluable. -/
def natSqrt (n : ℕ) : ℕ := if n ≤ 1 then n else sqrtIter n n (n / 2)

/-- Deterministic rational stand-in for `math.sqrt`: for `q = n/d ≥ 0` it
returns `natSqrt (n*d) / d`, which equals the true square root whenever
`n*d` is a perfect square (in particular on all inputs exercised by the
concrete evaluations below), and is a lower approximation otherwise. -/
def ratSqrt (q : ℚ) : ℚ := (natSqrt (q.num.toNat * q.den) : ℚ) / (q.den : ℚ)

/-- Models `numpy.rint`: round to the nearest integer, halves to even. -/
def rintQ (q : ℚ) : ℤ :=
  let f := ⌊q⌋
  let r := q - (f : ℚ)
  if r < 1 / 2 then f
  else if 1 / 2 < r then f + 1
  else if f % 2 = 0 then f else f + 1

/-- Models Python 2's `round(x, 3)` for the nonnegative values produced by
the bounding-circle computation (half rounds away from zero). -/
def pyRound3 (q : ℚ) : ℚ := ((⌊q * 1000 + 1 / 2⌋ : ℤ) : ℚ) / 1000

/-- Models Python's `int()` truncation toward zero of a rational. -/
def ratTrunc (q : ℚ) : ℤ := Int.tdiv q.num (q.den : ℤ)

/-- A 2D polygon: an ordered list of rational points (models the numpy
`(n,2)` arrays handed to the polygon kernel). -/
abbrev Poly := List (ℚ × ℚ)

/-- Cross product of `ab` and `ap`, the orientation test used by the hull
and clipping routines. -/
def cross2 (a b p : ℚ × ℚ) : ℚ :=
  (b.1 - a.1) * (p.2 - a.2) - (b.2 - a.2) * (p.1 - a.1)

/-- Lexicographic order on 2D points, used to sort hull input. -/
def lexLe (a b : ℚ × ℚ) : Prop := a.1 < b.1 ∨ (a.1 = b.1 ∧ a.2 ≤ b.2)

instance : DecidablePred (fun p : (ℚ × ℚ) × (ℚ × ℚ) => lexLe p.1 p.2) := by
  intro p; unfold lexLe; infer_instance

instance (a b : ℚ × ℚ) : Decidable (lexLe a b) := by
  unfold lexLe; infer_instance

/-- Insertion step of a simple insertion sort by `lexLe`. -/
def insertLex (p : ℚ × ℚ) : Poly → Poly
  | [] => [p]
  | q :: qs => if lexLe p q then p :: q :: qs else q :: insertLex p qs

/-- Insertion sort of points by `lexLe` (kernel-evaluable, unlike a
well-founded merge sort). -/
def sortLex (l : Poly) : Poly := l.foldr insertLex []

/-- Removes adjacent duplicates from a sorted point list. -/
def dedupSorted : Poly → Poly
  | [] => []
  | [p] => [p]
  | p :: q :: rest =>
    if p = q then dedupSorted (q :: rest) else p :: dedupSorted (q :: rest)

/-- Pops stack points that do not make a strict left turn, then pushes
`p`; the monotone-chain building block. -/
def chainPush : Poly → (ℚ × ℚ) → Poly
  | b :: a :: rest, p =>
    if cross2 a b p ≤ 0 then chainPush (a :: rest) p else p :: b :: a :: rest
  | l, p => p :: l

/-- Modelled from the spec: `polygon.convexHull` of the external
`Cura.util.polygon` module (not in the verified source tree).  Per the
spec it takes an arbitrary point sequence (duplicates and interior points
allowed) and returns only the extreme points in consistent winding order,
handling 0-, 1-, 2-point and fully degenerate inputs without failure.
Implemented as Andrew's monotone chain over exact rationals. -/
def convexHull (pts : Poly) : Poly :=
  let ps := dedupSorted (sortLex pts)
  match ps with
  | [] => []
  | [p] => [p]
  | [p, q] => [p, q]
  | _ =>
    let lower := ps.foldl chainPush []
    let upper := ps.reverse.foldl chainPush []
    lower.reverse.dropLast ++ upper.reverse.dropLast

/-- Modelled from the spec: `polygon.minkowskiHull` (external module).
The spec requires the hull of all pairwise point sums of the two convex
polygons. -/
def minkowskiHull (a b : Poly) : Poly :=
  convexHull ((a.map (fun p => b.map (fun q => (p.1 + q.1, p.2 + q.2)))).flatten)

/-- Intersection of the segment `p q` with the line through `a b`, used
by the convex clipping routine. -/
def lineIntersect (a b p q : ℚ × ℚ) : ℚ × ℚ :=
  let d1 := cross2 a b p
  let d2 := cross2 a b q
  let t := d1 / (d1 - d2)
  (p.1 + t * (q.1 - p.1), p.2 + t * (q.2 - p.2))

/-- Clips a polygon against one directed edge `a b`, keeping the side the
clip windows produced by `setHeadArea` lie on (the windows are wound
clockwise); one Sutherland-Hodgman step. -/
def clipEdge (a b : ℚ × ℚ) (poly : Poly) : Poly :=
  (poly.zip (poly.rotate 1)).foldr
    (fun pq acc =>
      let inP := cross2 a b pq.1 ≤ 0
      let inQ := cross2 a b pq.2 ≤ 0
      if inP then
        if inQ then pq.1 :: acc else pq.1 :: lineIntersect a b pq.1 pq.2 :: acc
      else if inQ then lineIntersect a b pq.1 pq.2 :: acc
      else acc)
    []

/-- Modelled from the spec: `polygon.clipConvex` (external module), the
intersection of two convex polygons, empty when the intersection is
empty, never failing.  Implemented by successive half-plane clipping
against the edges of the clip window. -/
def clipConvex (subject window : Poly) : Poly :=
  (window.zip (window.rotate 1)).foldl (fun acc ab => clipEdge ab.1 ab.2 acc) subject

/-- Minimum of a rational list (the Python code only ever takes the
minimum of nonempty vertex arrays; the `[]` case is a dead default). -/
def listMin : List ℚ → ℚ
  | [] => 0
  | a :: as => as.foldl min a

/-- Maximum of a rational list (same convention as `listMin`). -/
def listMax : List ℚ → ℚ
  | [] => 0
  | a :: as => as.foldl max a

/-- Componentwise minimum over a vertex list, modelling `numpy.min(.., 0)`. -/
def vecListMin (l : List Vec3) : Vec3 :=
  ⟨listMin (l.map Vec3.x), listMin (l.map Vec3.y), listMin (l.map Vec3.z)⟩

/-- Componentwise maximum over a vertex list, modelling `numpy.max(.., 0)`. -/
def vecListMax (l : List Vec3) : Vec3 :=
  ⟨listMax (l.map Vec3.x), listMax (l.map Vec3.y), listMax (l.map Vec3.z)⟩

/-- A mesh: vertex array plus the bookkeeping fields that `copy` moves
over.  `vbo` is an opaque handle identifying the shared GPU buffer; a
copy that keeps the same handle shares the buffer, a fresh handle would
mean duplicated data.  The vertex data itself is the ordered `vertexes`
list. -/
structure Mesh where
  vertexes : List Vec3
  vertexCount : ℕ
  vbo : ℕ
deriving DecidableEq

/-- Modelled from the spec: `Mesh.getTransformedVertexes` of the external
`Cura.util.mesh` module (not in the verified source tree).  Per the spec
the mesh provider returns the vertex sequence with the object's matrix
applied and translation ignored at this stage: each vertex as a row
vector times the matrix. -/
def Mesh.getTransformedVertexes (m : Mesh) (mat : Mat3) : List Vec3 :=
  m.vertexes.map (fun v => mulVec v mat)

/-- The sentinel used by `processMatrix` to initialize the running
min/max accumulators (`999999999999`). -/
def bigB : ℚ := 999999999999

/-- The full mutable state of a `printableObject`.  `Option` fields model
the Python attributes that are `None` until the first `processMatrix`
run. -/
structure PrintableObject where
  originFilename : Option String
  name : String
  meshList : List Mesh
  position : ℚ × ℚ
  matrix : Mat3
  transformedMin : Option Vec3
  transformedMax : Option Vec3
  transformedSize : Option Vec3
  boundaryCircleSize : Option ℚ
  drawOffset : Option Vec3
  boundaryHull : Option Poly
  printAreaExtend : Poly
  headAreaExtend : Poly
  headMinSize : ℚ × ℚ
  printAreaHull : Option Poly
  headAreaHull : Option Poly
  headAreaMinHull : Option Poly
deriving DecidableEq

/-- Models `os.path.basename` (the external standard library): the part
of the path after the last separator. -/
def pyBasename (s : String) : String := (s.splitOn "/").getLastD s

/-- Models the `if '.' in name: name = os.path.splitext(name)[0]` step of
the constructor: strip the last dot-extension when a dot is present. -/
def stripExt (s : String) : String :=
  if s.contains '.' then String.intercalate "." ((s.splitOn ".").dropLast) else s

/-- The `printableObject.__init__` constructor: empty mesh list, origin
position, identity matrix, `None` derived fields, and the default unit
squares for the margin/head shapes. -/
def initObject (originFilename : Option String) : PrintableObject where
  originFilename := originFilename
  name := match originFilename with
    | none => "None"
    | some s => stripExt (pyBasename s)
  meshList := []
  position := (0, 0)
  matrix := Mat3.id
  transformedMin := none
  transformedMax := none
  transformedSize := none
  boundaryCircleSize := none
  drawOffset := none
  boundaryHull := none
  printAreaExtend := [(-1, -1), (1, -1), (1, 1), (-1, 1)]
  headAreaExtend := [(-1, -1), (1, -1), (1, 1), (-1, 1)]
  headMinSize := (1, 1)
  printAreaHull := none
  headAreaHull := none
  headAreaMinHull := none

/-- `printableObject.copy`: builds a fresh object from the origin
filename, copies the matrix and the listed cached fields, and re-adds
each mesh keeping the same vertex data and the same `vbo` handle (the
Python code increments the shared buffer's reference count rather than
duplicating it).  Note which fields are NOT copied: `_position`,
`_headAreaExtend`, `_headMinSize`, `_headAreaHull` and
`_headAreaMinHull` keep their freshly-constructed values. -/
def copy (o : PrintableObject) : PrintableObject :=
  let ret := initObject o.originFilename
  { ret with
    matrix := o.matrix
    transformedMin := o.transformedMin
    transformedMax := o.transformedMax
    transformedSize := o.transformedSize
    boundaryCircleSize := o.boundaryCircleSize
    boundaryHull := o.boundaryHull
    printAreaExtend := o.printAreaExtend
    printAreaHull := o.printAreaHull
    drawOffset := o.drawOffset
    meshList := o.meshList.map (fun m =>
      { vertexes := m.vertexes, vertexCount := m.vertexCount, vbo := m.vbo }) }

/-- `setHeadArea(poly, minSize)`: stores the head shape parameters and
derives the head hull (Minkowski growth of the print-area hull) and the
rectangle-clipped minimum-clearance hull.  When `_printAreaHull` is still
`None` the Python code would raise; the modelled flows only call this
after it is set, so the `[]` default is dead. -/
def setHeadArea (o : PrintableObject) (poly : Poly) (minSize : ℚ × ℚ) : PrintableObject :=
  let pa := o.printAreaHull.getD []
  let hull := minkowskiHull pa poly
  let pmin := (listMin (pa.map Prod.fst) - minSize.1, listMin (pa.map Prod.snd) - minSize.2)
  let pmax := (listMax (pa.map Prod.fst) + minSize.1, listMax (pa.map Prod.snd) + minSize.2)
  let square : Poly := [pmin, (pmin.1, pmax.2), pmax, (pmax.1, pmin.2)]
  { o with
    headAreaExtend := poly
    headMinSize := minSize
    headAreaHull := some hull
    headAreaMinHull := some (clipConvex hull square) }

/-- State of `processMatrix`'s per-mesh loop: running bounds, running
boundary-circle radius and the accumulated integer silhouette hull. -/
structure PMState where
  tmin : Vec3
  tmax : Vec3
  bcs : ℚ
  hull : Poly
deriving DecidableEq

/-- The initial loop state of `processMatrix`: sentinel bounds, zero
radius, empty hull. -/
def pmInit : PMState := ⟨⟨bigB, bigB, bigB⟩, ⟨-bigB, -bigB, -bigB⟩, 0, []⟩

/-- One iteration of `processMatrix`'s `for m in self._meshList` loop:
transform the mesh, fold its rounded 2D projection into the silhouette
hull, widen the global bounds, and update the boundary-circle radius
with this mesh's bounding-sphere candidate (centre = midpoint of this
mesh's own bounds). -/
def pmStep (M : Mat3) (st : PMState) (m : Mesh) : PMState :=
  let tv := m.getTransformedVertexes M
  let hull := convexHull ((tv.map (fun v => ((rintQ v.x : ℚ), (rintQ v.y : ℚ)))) ++ st.hull)
  let mn := vecListMin tv
  let mx := vecListMax tv
  let tmin : Vec3 := ⟨min mn.x st.tmin.x, min mn.y st.tmin.y, min mn.z st.tmin.z⟩
  let tmax : Vec3 := ⟨max mx.x st.tmax.x, max mx.y st.tmax.y, max mx.z st.tmax.z⟩
  let ts := mx - mn
  let c : Vec3 := ⟨mn.x + ts.x / 2, mn.y + ts.y / 2, mn.z + ts.z / 2⟩
  let d2 := listMax (tv.map (fun v =>
    (v.x - c.x) * (v.x - c.x) + (v.y - c.y) * (v.y - c.y) + (v.z - c.z) * (v.z - c.z)))
  let bcs := max st.bcs (pyRound3 (ratSqrt d2))
  ⟨tmin, tmax, bcs, hull⟩

/-- `processMatrix`: the full derived-geometry recompute.  Accumulates
bounds / radius / silhouette hull over all meshes, derives the size and
the draw offset (planar midpoint, z pinned to the floor), shifts the
stored bounds to be offset-relative, builds the boundary hull (rounded
silhouette grown by a unit square, shifted by the planar offset), the
print-area hull, and finally re-derives the head hulls via
`setHeadArea`. -/
def processMatrix (o : PrintableObject) : PrintableObject :=
  let st := o.meshList.foldl (pmStep o.matrix) pmInit
  let ts := st.tmax - st.tmin
  let off : Vec3 := ⟨(st.tmax.x + st.tmin.x) / 2, (st.tmax.y + st.tmin.y) / 2, st.tmin.z⟩
  let tmax := st.tmax - off
  let tmin := st.tmin - off
  let bHull := minkowskiHull (st.hull.map (fun p => (p.1 - off.x, p.2 - off.y)))
    [(-1, -1), (-1, 1), (1, 1), (1, -1)]
  let o' := { o with
    transformedMin := some tmin
    transformedMax := some tmax
    transformedSize := some ts
    drawOffset := some off
    boundaryCircleSize := some st.bcs
    boundaryHull := some bHull
    printAreaHull := some (minkowskiHull bHull o.printAreaExtend) }
  setHeadArea o' o'.headAreaExtend o'.headMinSize

/-- Accessor `getMinimum` (offset-relative transformed minimum). -/
def getMinimum (o : PrintableObject) : Option Vec3 := o.transformedMin

/-- Accessor `getMaximum` (offset-relative transformed maximum). -/
def getMaximum (o : PrintableObject) : Option Vec3 := o.transformedMax

/-- Accessor `getSize`. -/
def getSize (o : PrintableObject) : Option Vec3 := o.transformedSize

/-- Accessor `getDrawOffset`. -/
def getDrawOffset (o : PrintableObject) : Option Vec3 := o.drawOffset

/-- Accessor `getBoundaryCircle`. -/
def getBoundaryCircle (o : PrintableObject) : Option ℚ := o.boundaryCircleSize

/-- `setPosition(newPos)`: plain field assignment, nothing else runs. -/
def setPosition (o : PrintableObject) (newPos : ℚ × ℚ) : PrintableObject :=
  { o with position := newPos }

/-- `applyMatrix(m)`: compose into the transform, then recompute. -/
def applyMatrix (o : PrintableObject) (m : Mat3) : PrintableObject :=
  processMatrix { o with matrix := o.matrix.mul m }

/-- The reflection matrix built by `mirror`: identity with entry
`[axis][axis]` set to `-1`. -/
def mirrorMat (axis : Fin 3) : Mat3 :=
  if axis = 0 then ⟨-1, 0, 0, 0, 1, 0, 0, 0, 1⟩
  else if axis = 1 then ⟨1, 0, 0, 0, -1, 0, 0, 0, 1⟩
  else ⟨1, 0, 0, 0, 1, 0, 0, 0, -1⟩

/-- `mirror(axis)`. -/
def mirror (o : PrintableObject) (axis : Fin 3) : PrintableObject :=
  applyMatrix o (mirrorMat axis)

/-- Euclidean norm of the matrix column selected by `axis`, as used by
`getScale`/`setScale`/`resetScale`/`resetRotation` (via `ratSqrt`). -/
def colNorm (m : Mat3) (axis : Fin 3) : ℚ :=
  if axis = 0 then ratSqrt (m.xx * m.xx + m.yx * m.yx + m.zx * m.zx)
  else if axis = 1 then ratSqrt (m.xy * m.xy + m.yy * m.yy + m.zy * m.zy)
  else ratSqrt (m.xz * m.xz + m.yz * m.yz + m.zz * m.zz)

/-- `getScale()`: the three column norms. -/
def getScale (o : PrintableObject) : Vec3 :=
  ⟨colNorm o.matrix 0, colNorm o.matrix 1, colNorm o.matrix 2⟩

/-- Uniform scale matrix. -/
def uniformMat (s : ℚ) : Mat3 := ⟨s, 0, 0, 0, s, 0, 0, 0, s⟩

/-- Identity with entry `[axis][axis]` replaced by `s`, the non-uniform
scale matrix of `setScale`/`setSize`. -/
def axisMat (axis : Fin 3) (s : ℚ) : Mat3 :=
  if axis = 0 then ⟨s, 0, 0, 0, 1, 0, 0, 0, 1⟩
  else if axis = 1 then ⟨1, 0, 0, 0, s, 0, 0, 0, 1⟩
  else ⟨1, 0, 0, 0, 1, 0, 0, 0, s⟩

/-- `setScale(scale, axis, uniform)`: divide the requested scale by the
current column norm; a factor of exactly zero is silently rejected
(early return), otherwise the scale matrix is composed in. -/
def setScale (o : PrintableObject) (scale : ℚ) (axis : Fin 3) (uniform : Bool) : PrintableObject :=
  let f := scale / colNorm o.matrix axis
  if f = 0 then o
  else applyMatrix o (if uniform then uniformMat f else axisMat axis f)

/-- `setSize(size, axis, uniform)`: same as `setScale` but the factor is
the requested size divided by the current transformed size along `axis`
(read from the cached `getSize()`). -/
def setSize (o : PrintableObject) (size : ℚ) (axis : Fin 3) (uniform : Bool) : PrintableObject :=
  let f := size / ((o.transformedSize.getD ⟨0, 0, 0⟩).comp axis)
  if f = 0 then o
  else applyMatrix o (if uniform then uniformMat f else axisMat axis f)

/-- `resetScale()`: renormalize each column to unit length. -/
def resetScale (o : PrintableObject) : PrintableObject :=
  applyMatrix o ⟨1 / colNorm o.matrix 0, 0, 0,
                 0, 1 / colNorm o.matrix 1, 0,
                 0, 0, 1 / colNorm o.matrix 2⟩

/-- `resetRotation()`: replace the transform with the diagonal of column
norms (this is the one mutator that replaces rather than composes), then
recompute. -/
def resetRotation (o : PrintableObject) : PrintableObject :=
  processMatrix { o with matrix :=
    ⟨colNorm o.matrix 0, 0, 0,
     0, colNorm o.matrix 1, 0,
     0, 0, colNorm o.matrix 2⟩ }

/-- The uniform factor computed by `scaleUpTo(size)`: the minimum of the
four planar candidates (both sides of the asymmetric position) and the
vertical candidate, exactly as the Python `min` chain evaluates. -/
def scaleUpToFactor (o : PrintableObject) (size : Vec3) : ℚ :=
  let vMin := o.transformedMin.getD ⟨0, 0, 0⟩
  let vMax := o.transformedMax.getD ⟨0, 0, 0⟩
  let sX1 := (size.x / 2 - o.position.1) / ((vMax.x - vMin.x) / 2)
  let sY1 := (size.y / 2 - o.position.2) / ((vMax.y - vMin.y) / 2)
  let sX2 := (o.position.1 + size.x / 2) / ((vMax.x - vMin.x) / 2)
  let sY2 := (o.position.2 + size.y / 2) / ((vMax.y - vMin.y) / 2)
  let sZ := size.z / (vMax.z - vMin.z)
  min (min (min (min sX1 sY1) sX2) sY2) sZ

/-- `scaleUpTo(size)`: apply the computed factor uniformly when it is
positive, otherwise do nothing. -/
def scaleUpTo (o : PrintableObject) (size : Vec3) : PrintableObject :=
  if 0 < scaleUpToFactor o size then applyMatrix o (uniformMat (scaleUpToFactor o size)) else o

/-- `canStoreAsSTL()`: `len(self._meshList) < 2`. -/
def canStoreAsSTL (o : PrintableObject) : Bool := o.meshList.length < 2

/-- The first vertex of minimal z, modelling
`transformedVertexes[transformedVertexes.argmin(0)[2]]` (numpy's argmin
returns the first index attaining the minimum; the `[]` case is dead,
Python would raise on an empty mesh). -/
def argminZ : List Vec3 → Vec3
  | [] => ⟨0, 0, 0⟩
  | v :: vs => vs.foldl (fun best w => if w.z < best.z then w else best) v

/-- The vertex-scanning loop shared by both passes of `layFlat`: walk the
transformed vertices in order; for each vertex farther than 5 units from
the minimal-z vertex (distance measured by `distSq`, full 3D in pass 1,
y/z-planar in pass 2), compute the elevation ratio `diff.z / len` and
remember the smallest one together with its offset vector.  Returns the
final `(dotMin, dotV)` pair (`dotV = none` when no vertex passed the
distance threshold). -/
def flatSearch (minZ : Vec3) (distSq : Vec3 → ℚ) (tv : List Vec3) : ℚ × Option Vec3 :=
  tv.foldl
    (fun acc v =>
      let diff := v - minZ
      let len := ratSqrt (distSq diff)
      if len < 5 then acc
      else
        let dot := diff.z / len
        if dot < acc.1 then (dot, some diff) else acc)
    (1, none)

/-- `layFlat()`: the two-pass flattening heuristic.  Pass 1 composes a
z-axis rotation (aligning the found direction with the x-axis) and a
y-axis rotation (flattening the elevation) directly into the matrix
WITHOUT recomputing derived state; pass 2 applies an x-axis rotation via
`applyMatrix`.  Either pass returns early when no vertex lies beyond the
distance threshold -- note the pass-2 early return leaves the pass-1
matrix change in place with the derived fields untouched.  The
trigonometric values are embedded by their exact algebraic forms (see
the file header); `rad = -atan2(dv.y, dv.x)` gives
`cos rad = dv.x / r`, `sin rad = -dv.y / r` with `r = sqrt(dv.x^2 +
dv.y^2)`, and `rad = ±asin(d)` gives `cos rad = sqrt(1 - d^2)`,
`sin rad = ±d`. -/
def layFlat (o : PrintableObject) : PrintableObject :=
  match o.meshList with
  | [] => o
  | m0 :: _ =>
    let tv := m0.getTransformedVertexes o.matrix
    let p1 := flatSearch (argminZ tv) (fun d => d.x * d.x + d.y * d.y + d.z * d.z) tv
    match p1.2 with
    | none => o
    | some dv =>
      let r := ratSqrt (dv.x * dv.x + dv.y * dv.y)
      let c1 := dv.x / r
      let s1 := dv.y / r
      let mz : Mat3 := ⟨c1, -s1, 0, s1, c1, 0, 0, 0, 1⟩
      let cy := ratSqrt (1 - p1.1 * p1.1)
      let my : Mat3 := ⟨cy, 0, -p1.1, 0, 1, 0, p1.1, 0, cy⟩
      let o2 := { o with matrix := (o.matrix.mul mz).mul my }
      let tv2 := m0.getTransformedVertexes o2.matrix
      let p2 := flatSearch (argminZ tv2) (fun d => d.y * d.y + d.z * d.z) tv2
      match p2.2 with
      | none => o2
      | some dv2 =>
        let cx := ratSqrt (1 - p2.1 * p2.1)
        let s := if dv2.y < 0 then p2.1 else -p2.1
        applyMatrix o2 ⟨1, 0, 0, 0, cx, s, 0, -s, cx⟩

/-- The spatial-hash bucket key of `getVertexIndexList`:
`int(x*100) | int(y*100) << 10 | int(z*100) << 20` with Python's
truncating `int()` and arbitrary-precision bitwise or (shifts are exact
multiplications by powers of two). -/
def vHash (v : Vec3) : ℤ :=
  Int.lor (Int.lor (ratTrunc (v.x * 100)) (ratTrunc (v.y * 100) * 1024))
    (ratTrunc (v.z * 100) * 1048576)

/-- The dedup state threaded through `getVertexIndexList`: the
`vertexMap` dictionary (modelled as an association list where the most
recent binding of a key shadows older ones, which is exactly Python dict
assignment as seen by lookups) and the merged `vertexList`. -/
structure DedupState where
  vertexMap : List (ℤ × List ℕ)
  vertexList : List Vec3
deriving DecidableEq

/-- Dictionary lookup in the modelled `vertexMap`: the most recent
binding of the key, `none` when absent (`hashNr in vertexMap` is
`(bucketLookup .. ..).isSome`). -/
def bucketLookup (m : List (ℤ × List ℕ)) (k : ℤ) : Option (List ℕ) :=
  match m with
  | [] => none
  | e :: rest => if k = e.1 then some e.2 else bucketLookup rest k

/-- The bucket scan of `getVertexIndexList`: when the hash bucket exists,
walk its index list in order and keep the LAST entry whose stored vertex
is within the 0.001 tolerance (`norm(v - w) < 0.001` is translated to
the exactly equivalent `normSq (v - w) < (1/1000)^2`); otherwise
`none`. -/
def scanBucket (st : DedupState) (v : Vec3) : Option ℕ :=
  match bucketLookup st.vertexMap (vHash v) with
  | none => none
  | some l =>
    l.foldl
      (fun acc i =>
        if normSq (v - st.vertexList.getD i ⟨0, 0, 0⟩) < 1 / 1000000 then some i else acc)
      none

/-- Processing of one vertex by `getVertexIndexList`: merge into a
tolerance-close bucket entry when the scan finds one; otherwise append
the vertex and OVERWRITE the bucket with the singleton `[new index]`
(`vertexMap[hashNr] = [vIdx]` in the source -- the previous bucket
contents are discarded, not appended to). -/
def dedupVertex (st : DedupState) (v : Vec3) : DedupState × ℕ :=
  match scanBucket st v with
  | some i => (st, i)
  | none =>
    (⟨(vHash v, [st.vertexList.length]) :: st.vertexMap, st.vertexList ++ [v]⟩,
     st.vertexList.length)

/-- The inner `for idx in xrange(0, len(verts))` loop: fold the
transformed vertices of one mesh through `dedupVertex`, collecting the
per-vertex merged indices in order. -/
def dedupList (st : DedupState) : List Vec3 → DedupState × List ℕ
  | [] => (st, [])
  | v :: vs =>
    let q := dedupVertex st v
    let r := dedupList q.1 vs
    (r.1, q.2 :: r.2)

/-- The outer `for m in self._meshList` loop of `getVertexIndexList`. -/
def dedupMeshes (M : Mat3) (st : DedupState) : List Mesh → DedupState × List (List ℕ)
  | [] => (st, [])
  | m :: ms =>
    let q := dedupList st (m.getTransformedVertexes M)
    let r := dedupMeshes M q.1 ms
    (r.1, q.2 :: r.2)

/-- `getVertexIndexList()`: returns the merged vertex list and one index
list per mesh.  (The source passes `True` to `getTransformedVertexes`,
which per the spec is the export variant of the same transformed-vertex
sequence; the claims are insensitive to the uniform offset it adds, so
the plain transform is used.) -/
def getVertexIndexList (o : PrintableObject) : List Vec3 × List (List ℕ) :=
  let r := dedupMeshes o.matrix ⟨[], []⟩ o.meshList
  (r.1.vertexList, r.2)

/-- The coordinates along one axis of every transformed vertex of the
object, mesh by mesh in `processMatrix`'s iteration order. -/
def axCoords (o : PrintableObject) (ax : Fin 3) : List ℚ :=
  (o.meshList.map (fun m =>
    (m.getTransformedVertexes o.matrix).map (fun v => v.comp ax))).flatten

/-- Concrete single-triangle mesh of the spec's scenario:
vertices (0,0,0), (10,0,0), (0,10,0). -/
def triMesh : Mesh := ⟨[⟨0, 0, 0⟩, ⟨10, 0, 0⟩, ⟨0, 10, 0⟩], 3, 0⟩

/-- The spec scenario object: single triangular mesh, identity transform,
zero-extent margin/head shapes, with derived geometry computed. -/
def triObj : PrintableObject :=
  processMatrix { initObject none with
    meshList := [triMesh]
    printAreaExtend := [(0, 0)]
    headAreaExtend := [(0, 0)]
    headMinSize := (0, 0) }

/-- A tetrahedron-like mesh with nonzero extent along every axis. -/
def tetMesh : Mesh := ⟨[⟨0, 0, 0⟩, ⟨10, 0, 0⟩, ⟨0, 10, 0⟩, ⟨0, 0, 10⟩], 4, 0⟩

/-- A processed object with nonzero extent along every axis (used where a
degenerate z-extent would make the Python float arithmetic divide zero
by zero). -/
def tetObj : PrintableObject :=
  processMatrix { initObject none with meshList := [tetMesh] }

/-- A two-vertex "stick" mesh along the y-axis: pass 1 of `layFlat` finds
the far vertex (distance 10 > 5, elevation 0) and rotates it onto the
x-axis; pass 2 then finds no vertex beyond the threshold in y/z distance
and returns early. -/
def stickMesh : Mesh := ⟨[⟨0, 0, 0⟩, ⟨0, 10, 0⟩], 2, 0⟩

/-- The processed stick object, the failing input for `layFlat`'s
stale-derived-state early return. -/
def stickObj : PrintableObject :=
  processMatrix { initObject none with meshList := [stickMesh] }

/-- Dedup failing input: three collinear vertices in the same 0.01-wide
hash bucket; v0=(0,0,0) and v2=(1/2000,0,0) are 0.0005 apart (within the
0.001 merge tolerance) while v1=(1/200,0,0) sits between them in arrival
order, 0.005 away from both. -/
def dedupObj : PrintableObject :=
  { initObject none with
    meshList := [⟨[⟨0, 0, 0⟩, ⟨1 / 200, 0, 0⟩, ⟨1 / 2000, 0, 0⟩], 3, 0⟩] }

/-- A fully processed object moved away from the origin, exercising the
fields `copy` does not carry over. -/
def c4Obj : PrintableObject := setPosition triObj (5, 0)

/-- Invariant of the dedup state: every index stored in any reachable
hash bucket is a valid index into the merged vertex list. -/
def MapOk (st : DedupState) : Prop :=
  ∀ k l, bucketLookup st.vertexMap k = some l → ∀ i ∈ l, i < st.vertexList.length

/- ------------------------------------------------------------------
Theorems.
------------------------------------------------------------------ -/

theorem setHeadArea_matrix (o : PrintableObject) (p : Poly) (ms : ℚ × ℚ) :
    (setHeadArea o p ms).matrix = o.matrix := rfl

theorem processMatrix_matrix (o : PrintableObject) :
    (processMatrix o).matrix = o.matrix := rfl

theorem applyMatrix_matrix (o : PrintableObject) (m : Mat3) :
    (applyMatrix o m).matrix = o.matrix.mul m := rfl

theorem mul_mirrorMat_mirrorMat (M : Mat3) (ax : Fin 3) :
    (M.mul (mirrorMat ax)).mul (mirrorMat ax) = M := by
  fin_cases ax <;> · ext <;> simp [mirrorMat, Mat3.mul]

/-- C7: mirroring along axis 0 twice composes the same reflection matrix
into the transform twice; since the reflection is its own inverse the
stored matrix returns to its original value, exactly (the embedding is
exact rational arithmetic, so no floating tolerance is needed).  Proved
for every axis, which covers the claimed `mirror(0)`. -/
theorem mirror_twice_restores_matrix (o : PrintableObject) (axis : Fin 3) :
    (mirror (mirror o axis) axis).matrix = o.matrix := by
  show ((o.matrix.mul (mirrorMat axis)).mul (mirrorMat axis)) = o.matrix
  exact mul_mirrorMat_mirrorMat o.matrix axis

/-- C10: `setPosition` assigns the position field and nothing else: the
transform, the mesh list and every derived/cached field are untouched
(in particular no geometry recompute runs). -/
theorem setPosition_changes_only_position (o : PrintableObject) (p : ℚ × ℚ) :
    (setPosition o p).position = p ∧
    (setPosition o p).originFilename = o.originFilename ∧
    (setPosition o p).name = o.name ∧
    (setPosition o p).meshList = o.meshList ∧
    (setPosition o p).matrix = o.matrix ∧
    (setPosition o p).transformedMin = o.transformedMin ∧
    (setPosition o p).transformedMax = o.transformedMax ∧
    (setPosition o p).transformedSize = o.transformedSize ∧
    (setPosition o p).boundaryCircleSize = o.boundaryCircleSize ∧
    (setPosition o p).drawOffset = o.drawOffset ∧
    (setPosition o p).boundaryHull = o.boundaryHull ∧
    (setPosition o p).printAreaExtend = o.printAreaExtend ∧
    (setPosition o p).headAreaExtend = o.headAreaExtend ∧
    (setPosition o p).headMinSize = o.headMinSize ∧
    (setPosition o p).printAreaHull = o.printAreaHull ∧
    (setPosition o p).headAreaHull = o.headAreaHull ∧
    (setPosition o p).headAreaMinHull = o.headAreaMinHull :=
  ⟨rfl, rfl, rfl, rfl, rfl, rfl, rfl, rfl, rfl, rfl, rfl, rfl, rfl, rfl, rfl, rfl, rfl⟩

/-- C5 counterexample: an object with NO meshes (the freshly constructed
state) satisfies `canStoreAsSTL` even though it does not have exactly
one mesh, so "true iff exactly one mesh" is false as stated. -/
theorem canStoreAsSTL_true_with_no_meshes :
    canStoreAsSTL (initObject none) = true ∧ (initObject none).meshList.length ≠ 1 :=
  ⟨rfl, by decide⟩

/-- C5 amended: `canStoreAsSTL` returns true iff the object has AT MOST
one mesh (`len(self._meshList) < 2`), i.e. also for a meshless object. -/
theorem canStoreAsSTL_iff_at_most_one_mesh (o : PrintableObject) :
    canStoreAsSTL o = true ↔ o.meshList.length ≤ 1 := by
  simp only [canStoreAsSTL, decide_eq_true_eq]
  omega

/-- C4 counterexample: `copy` does not carry over the position (the copy
sits at the origin) nor the head-clearance hull (left `None` in the
copy), refuting the claim that position and all four hulls are copied. -/
theorem copy_resets_position_and_head_hulls :
    (copy c4Obj).position ≠ c4Obj.position ∧
    (copy c4Obj).headAreaHull ≠ c4Obj.headAreaHull :=
  of_decide_eq_true (by with_unfolding_all rfl)

/-- C4 amended: `copy` duplicates the transform, the cached bounds, size,
draw offset, boundary-circle radius, boundary hull, print-area margin
shape and print-area hull, and re-adds the meshes with identical vertex
data and the SAME shared `vbo` handle (reference-counted sharing, not
duplication); but the position is reset to the origin and the
head-clearance configuration and both head hulls keep their
freshly-constructed defaults. -/
theorem copy_copies_transform_and_cached_geometry (o : PrintableObject) :
    (copy o).originFilename = o.originFilename ∧
    (copy o).matrix = o.matrix ∧
    (copy o).transformedMin = o.transformedMin ∧
    (copy o).transformedMax = o.transformedMax ∧
    (copy o).transformedSize = o.transformedSize ∧
    (copy o).boundaryCircleSize = o.boundaryCircleSize ∧
    (copy o).drawOffset = o.drawOffset ∧
    (copy o).boundaryHull = o.boundaryHull ∧
    (copy o).printAreaExtend = o.printAreaExtend ∧
    (copy o).printAreaHull = o.printAreaHull ∧
    (copy o).meshList = o.meshList ∧
    (copy o).position = (0, 0) ∧
    (copy o).headAreaExtend = [(-1, -1), (1, -1), (1, 1), (-1, 1)] ∧
    (copy o).headMinSize = (1, 1) ∧
    (copy o).headAreaHull = none ∧
    (copy o).headAreaMinHull = none := by
  refine ⟨rfl, rfl, rfl, rfl, rfl, rfl, rfl, rfl, rfl, rfl, ?_, rfl, rfl, rfl, rfl, rfl⟩
  show o.meshList.map (fun m => ⟨m.vertexes, m.vertexCount, m.vbo⟩) = o.meshList
  have h : (fun m : Mesh => (⟨m.vertexes, m.vertexCount, m.vbo⟩ : Mesh)) = id :=
    funext fun m => rfl
  rw [h, List.map_id]

/-- C3 counterexample: on the spec's scenario object the stored bounds
are offset-relative (`processMatrix` subtracts the draw offset from both
before storing them), so `getMinimum()` is (-5,-5,0) and `getMaximum()`
is (5,5,0), not (0,0,0) and (10,10,0) as claimed. -/
theorem scenario_bounds_not_absolute :
    ¬ (getMinimum triObj = some ⟨0, 0, 0⟩ ∧ getMaximum triObj = some ⟨10, 10, 0⟩ ∧
       getSize triObj = some ⟨10, 10, 0⟩ ∧ getDrawOffset triObj = some ⟨5, 5, 0⟩) :=
  of_decide_eq_false (by with_unfolding_all rfl)

/-- C3 amended: for the scenario object (single triangle (0,0,0),
(10,0,0), (0,10,0), identity transform, zero-extent margin/head shapes)
the recompute yields `getSize()` = (10,10,0) and `getDrawOffset()` =
(5,5,0) as claimed, while the stored bounds are the offset-relative
`getMinimum()` = (-5,-5,0) and `getMaximum()` = (5,5,0). -/
theorem scenario_bounds_offset_relative :
    getMinimum triObj = some ⟨-5, -5, 0⟩ ∧ getMaximum triObj = some ⟨5, 5, 0⟩ ∧
    getSize triObj = some ⟨10, 10, 0⟩ ∧ getDrawOffset triObj = some ⟨5, 5, 0⟩ :=
  of_decide_eq_true (by with_unfolding_all rfl)

/-- C1: `layFlat` on the processed two-vertex stick object takes the
pass-2 early return: pass 1 composes a quarter-turn about z into the
matrix (the matrix changes), but no recompute runs afterwards, so the
derived fields keep their pre-call values and disagree with what a fresh
recompute from the final matrix produces (the cached size stays (0,10,0)
while a fresh recompute of the rotated object gives (10,0,0)).  This
exhibits a mutator returning with the transform changed and the derived
fields stale, contradicting the claimed invariant. -/
theorem layFlat_leaves_derived_stale :
    (layFlat stickObj).matrix ≠ stickObj.matrix ∧
    (layFlat stickObj).transformedSize = stickObj.transformedSize ∧
    (layFlat stickObj).transformedSize ≠ (processMatrix (layFlat stickObj)).transformedSize :=
  of_decide_eq_true (by with_unfolding_all rfl)

/-- C2: in `getVertexIndexList`, appending a new vertex OVERWRITES its
hash bucket with the singleton `[new index]`, discarding the bucket's
previous entries.  On the three-vertex mesh of `dedupObj` the vertices
v0=(0,0,0) and v2=(1/2000,0,0) share the bucket key and lie 0.0005 <
0.001 apart, yet they receive the distinct merged indices 0 and 2,
because the intervening non-close vertex v1=(1/200,0,0) replaced the
bucket list `[0]` with `[1]`.  This refutes "always merged regardless of
how many other vertices hashed to that bucket in between". -/
theorem dedup_bucket_overwrite_loses_merge :
    (getVertexIndexList dedupObj).2 = [[0, 1, 2]] ∧
    (getVertexIndexList dedupObj).1.length = 3 ∧
    vHash ⟨0, 0, 0⟩ = vHash ⟨1 / 2000, 0, 0⟩ ∧
    normSq (Vec3.mk 0 0 0 - ⟨1 / 2000, 0, 0⟩) < 1 / 1000000 :=
  of_decide_eq_true (by with_unfolding_all rfl)

theorem bucketLookup_cons (e : ℤ × List ℕ) (m : List (ℤ × List ℕ)) (k : ℤ) :
    bucketLookup (e :: m) k = if k = e.1 then some e.2 else bucketLookup m k := rfl

theorem scan_foldl_mem (v : Vec3) (vl : List Vec3) (l : List ℕ) :
    ∀ (a : Option ℕ) (i : ℕ),
      l.foldl (fun acc j => if normSq (v - vl.getD j ⟨0, 0, 0⟩) < 1 / 1000000 then some j else acc)
        a = some i → a = some i ∨ i ∈ l := by
  induction l with
  | nil => intro a i h; exact Or.inl h
  | cons c cs ih =>
    intro a i h
    rcases ih _ i h with h' | h'
    · by_cases hc : normSq (v - vl.getD c ⟨0, 0, 0⟩) < 1 / 1000000
      · simp only [if_pos hc, Option.some.injEq] at h'
        exact Or.inr (by simp [h'])
      · simp only [if_neg hc] at h'
        exact Or.inl h'
    · exact Or.inr (List.mem_cons_of_mem _ h')

theorem scanBucket_some (st : DedupState) (v : Vec3) (i : ℕ)
    (h : scanBucket st v = some i) :
    ∃ l, bucketLookup st.vertexMap (vHash v) = some l ∧ i ∈ l := by
  unfold scanBucket at h
  rcases hb : bucketLookup st.vertexMap (vHash v) with _ | l
  · rw [hb] at h; exact absurd h (by simp)
  · rw [hb] at h
    rcases scan_foldl_mem v st.vertexList l none i h with h' | h'
    · exact absurd h' (by simp)
    · exact ⟨l, rfl, h'⟩

theorem dedupVertex_spec (st : DedupState) (v : Vec3) (h : MapOk st) :
    MapOk (dedupVertex st v).1 ∧
    st.vertexList.length ≤ (dedupVertex st v).1.vertexList.length ∧
    (dedupVertex st v).1.vertexList.length ≤ st.vertexList.length + 1 ∧
    (dedupVertex st v).2 < (dedupVertex st v).1.vertexList.length := by
  rcases hs : scanBucket st v with _ | i
  · have hd : dedupVertex st v =
        (⟨(vHash v, [st.vertexList.length]) :: st.vertexMap, st.vertexList ++ [v]⟩,
         st.vertexList.length) := by
      unfold dedupVertex; rw [hs]
    rw [hd]
    have hlen : (st.vertexList ++ [v]).length = st.vertexList.length + 1 := by
      simp
    refine ⟨?_, ?_, ?_, ?_⟩
    · intro k l hl i' hi'
      rw [bucketLookup_cons] at hl
      show i' < (st.vertexList ++ [v]).length
      rw [hlen]
      by_cases hk : k = vHash v
      · rw [if_pos hk] at hl
        have : l = [st.vertexList.length] := by injection hl with h'; exact h'.symm
        subst this
        have : i' = st.vertexList.length := by simpa using hi'
        omega
      · rw [if_neg hk] at hl
        have := h k l hl i' hi'
        omega
    · show st.vertexList.length ≤ (st.vertexList ++ [v]).length
      rw [hlen]; omega
    · show (st.vertexList ++ [v]).length ≤ st.vertexList.length + 1
      rw [hlen]
    · show st.vertexList.length < (st.vertexList ++ [v]).length
      rw [hlen]; omega
  · have hd : dedupVertex st v = (st, i) := by unfold dedupVertex; rw [hs]
    rw [hd]
    dsimp only
    obtain ⟨l, hl, hm⟩ := scanBucket_some st v i hs
    exact ⟨h, le_refl _, by omega, h _ _ hl i hm⟩

theorem dedupList_cons (st : DedupState) (v : Vec3) (vs : List Vec3) :
    dedupList st (v :: vs) =
      ((dedupList (dedupVertex st v).1 vs).1,
       (dedupVertex st v).2 :: (dedupList (dedupVertex st v).1 vs).2) := rfl

theorem dedupList_spec (vs : List Vec3) :
    ∀ st : DedupState, MapOk st →
      MapOk (dedupList st vs).1 ∧
      st.vertexList.length ≤ (dedupList st vs).1.vertexList.length ∧
      (dedupList st vs).1.vertexList.length ≤ st.vertexList.length + vs.length ∧
      (dedupList st vs).2.length = vs.length ∧
      ∀ i ∈ (dedupList st vs).2, i < (dedupList st vs).1.vertexList.length := by
  induction vs with
  | nil =>
    intro st h
    have hn : dedupList st [] = (st, []) := rfl
    rw [hn]
    dsimp only
    exact ⟨h, le_refl _, by omega, rfl, by simp⟩
  | cons v vs ih =>
    intro st h
    obtain ⟨h1, h2, h3, h4⟩ := dedupVertex_spec st v h
    obtain ⟨g1, g2, g3, g4, g5⟩ := ih (dedupVertex st v).1 h1
    rw [dedupList_cons]
    dsimp only
    refine ⟨g1, by omega, by simp only [List.length_cons]; omega, by simp [g4], ?_⟩
    intro i hi
    rcases List.mem_cons.mp hi with hi' | hi'
    · subst hi'; omega
    · exact g5 i hi'

theorem dedupMeshes_cons (M : Mat3) (st : DedupState) (m : Mesh) (ms : List Mesh) :
    dedupMeshes M st (m :: ms) =
      ((dedupMeshes M (dedupList st (m.getTransformedVertexes M)).1 ms).1,
       (dedupList st (m.getTransformedVertexes M)).2 ::
         (dedupMeshes M (dedupList st (m.getTransformedVertexes M)).1 ms).2) := rfl

theorem dedupMeshes_spec (M : Mat3) (ms : List Mesh) :
    ∀ st : DedupState, MapOk st →
      MapOk (dedupMeshes M st ms).1 ∧
      st.vertexList.length ≤ (dedupMeshes M st ms).1.vertexList.length ∧
      (dedupMeshes M st ms).1.vertexList.length ≤
        st.vertexList.length + (ms.map (fun m => m.vertexes.length)).sum ∧
      List.Forall₂ (fun (idxs : List ℕ) (m : Mesh) => idxs.length = m.vertexes.length)
        (dedupMeshes M st ms).2 ms ∧
      ∀ idxs ∈ (dedupMeshes M st ms).2, ∀ i ∈ idxs,
        i < (dedupMeshes M st ms).1.vertexList.length := by
  induction ms with
  | nil =>
    intro st h
    have hn : dedupMeshes M st [] = (st, []) := rfl
    rw [hn]
    dsimp only
    exact ⟨h, le_refl _, by simp, List.Forall₂.nil, by simp⟩
  | cons m ms ih =>
    intro st h
    obtain ⟨h1, h2, h3, h4, h5⟩ := dedupList_spec (m.getTransformedVertexes M) st h
    obtain ⟨g1, g2, g3, g4, g5⟩ := ih (dedupList st (m.getTransformedVertexes M)).1 h1
    rw [dedupMeshes_cons]
    dsimp only
    have htv : (m.getTransformedVertexes M).length = m.vertexes.length :=
      List.length_map _ _
    refine ⟨g1, by omega, ?_, ?_, ?_⟩
    · simp only [List.map_cons, List.sum_cons]
      omega
    · exact List.Forall₂.cons (by rw [h4, htv]) g4
    · intro idxs hidxs i hi
      rcases List.mem_cons.mp hidxs with hx | hx

      · subst hx
        have := h5 i hi
        omega
      · exact g5 idxs hx i hi

/-- C9: `getVertexIndexList` returns a merged vertex list no longer than
the total input vertex count, one index list per mesh with exactly one
entry per original vertex, and every entry a valid index into the merged
vertex list. -/
theorem getVertexIndexList_structure (o : PrintableObject) :
    (getVertexIndexList o).1.length ≤ (o.meshList.map (fun m => m.vertexes.length)).sum ∧
    List.Forall₂ (fun (idxs : List ℕ) (m : Mesh) => idxs.length = m.vertexes.length)
      (getVertexIndexList o).2 o.meshList ∧
    ∀ idxs ∈ (getVertexIndexList o).2, ∀ i ∈ idxs, i < (getVertexIndexList o).1.length := by
  have h0 : MapOk ⟨[], []⟩ := by
    intro k l hl
    exact absurd hl (by simp [bucketLookup])
  obtain ⟨h1, h2, h3, h4, h5⟩ := dedupMeshes_spec o.matrix o.meshList ⟨[], []⟩ h0
  exact ⟨by simpa using h3, h4, h5⟩

/-- C8: when the factor computed by `setScale` or `setSize` is exactly
zero the early `return` fires before `applyMatrix`, and when the factor
computed by `scaleUpTo` is not positive the `if scale > 0` guard skips
`applyMatrix`; in every such case the whole object state is returned
unchanged. -/
theorem zero_factor_mutators_noop (o : PrintableObject) (s : ℚ) (axis : Fin 3)
    (u : Bool) (t : Vec3) :
    (s / colNorm o.matrix axis = 0 → setScale o s axis u = o) ∧
    (s / ((o.transformedSize.getD ⟨0, 0, 0⟩).comp axis) = 0 → setSize o s axis u = o) ∧
    (scaleUpToFactor o t ≤ 0 → scaleUpTo o t = o) := by
  refine ⟨fun h => ?_, fun h => ?_, fun h => ?_⟩
  · simp [setScale, h]
  · simp [setSize, h]
  · simp [scaleUpTo, not_lt.mpr h]

/-- C8 witness: concrete no-op instances on the processed tetrahedron
object (requested scale 0 and requested size 0 give factor 0; target
size (0,0,0) gives `scaleUpTo` factor 0). -/
theorem zero_factor_mutators_noop_witness :
    setScale tetObj 0 0 true = tetObj ∧ setSize tetObj 0 0 true = tetObj ∧
    scaleUpTo tetObj ⟨0, 0, 0⟩ = tetObj :=
  ⟨(zero_factor_mutators_noop tetObj 0 0 true ⟨0, 0, 0⟩).1 (zero_div _),
   (zero_factor_mutators_noop tetObj 0 0 true ⟨0, 0, 0⟩).2.1 (zero_div _),
   (zero_factor_mutators_noop tetObj 0 0 true ⟨0, 0, 0⟩).2.2
     (of_decide_eq_true (by with_unfolding_all rfl))⟩

theorem foldl_min_shift (l : List ℚ) :
    ∀ (a b : ℚ), l.foldl min (min b a) = min b (l.foldl min a) := by
  induction l with
  | nil => intro a b; rfl
  | cons c cs ih =>
    intro a b
    simp only [List.foldl_cons]
    rw [min_assoc, ih]

theorem foldl_max_shift (l : List ℚ) :
    ∀ (a b : ℚ), l.foldl max (max b a) = max b (l.foldl max a) := by
  induction l with
  | nil => intro a b; rfl
  | cons c cs ih =>
    intro a b
    simp only [List.foldl_cons]
    rw [max_assoc, ih]

theorem foldl_min_eq (l : List ℚ) (h : l ≠ []) (b : ℚ) :
    l.foldl min b = min b (listMin l) := by
  cases l with
  | nil => exact absurd rfl h
  | cons a as =>
    simp only [List.foldl_cons, listMin]
    exact foldl_min_shift as a b

theorem foldl_max_eq (l : List ℚ) (h : l ≠ []) (b : ℚ) :
    l.foldl max b = max b (listMax l) := by
  cases l with
  | nil => exact absurd rfl h
  | cons a as =>
    simp only [List.foldl_cons, listMax]
    exact foldl_max_shift as a b

theorem listMin_append (xs ys : List ℚ) (hx : xs ≠ []) (hy : ys ≠ []) :
    listMin (xs ++ ys) = min (listMin xs) (listMin ys) := by
  cases xs with
  | nil => exact absurd rfl hx
  | cons a as =>
    show (as ++ ys).foldl min a = _
    rw [List.foldl_append, foldl_min_eq ys hy]
    rfl

theorem listMax_append (xs ys : List ℚ) (hx : xs ≠ []) (hy : ys ≠ []) :
    listMax (xs ++ ys) = max (listMax xs) (listMax ys) := by
  cases xs with
  | nil => exact absurd rfl hx
  | cons a as =>
    show (as ++ ys).foldl max a = _
    rw [List.foldl_append, foldl_max_eq ys hy]
    rfl

theorem foldl_min_mem (as : List ℚ) : ∀ a : ℚ, as.foldl min a ∈ a :: as := by
  induction as with
  | nil => intro a; exact List.mem_singleton.mpr rfl
  | cons c cs ih =>
    intro a
    simp only [List.foldl_cons]
    rcases List.mem_cons.mp (ih (min a c)) with h' | h'
    · rw [h']
      rcases min_choice a c with h | h <;> rw [h] <;> simp
    · simp [List.mem_cons_of_mem, h']

theorem foldl_max_mem (as : List ℚ) : ∀ a : ℚ, as.foldl max a ∈ a :: as := by
  induction as with
  | nil => intro a; exact List.mem_singleton.mpr rfl
  | cons c cs ih =>
    intro a
    simp only [List.foldl_cons]
    rcases List.mem_cons.mp (ih (max a c)) with h' | h'
    · rw [h']
      rcases max_choice a c with h | h <;> rw [h] <;> simp
    · simp [List.mem_cons_of_mem, h']

theorem listMin_mem (l : List ℚ) (h : l ≠ []) : listMin l ∈ l := by
  cases l with
  | nil => exact absurd rfl h
  | cons a as => exact foldl_min_mem as a

theorem listMax_mem (l : List ℚ) (h : l ≠ []) : listMax l ∈ l := by
  cases l with
  | nil => exact absurd rfl h
  | cons a as => exact foldl_max_mem as a

theorem mul_min_q (f a b : ℚ) (hf : 0 ≤ f) : f * min a b = min (f * a) (f * b) := by
  rcases le_total a b with h | h
  · rw [min_eq_left h, min_eq_left (mul_le_mul_of_nonneg_left h hf)]
  · rw [min_eq_right h, min_eq_right (mul_le_mul_of_nonneg_left h hf)]

theorem mul_max_q (f a b : ℚ) (hf : 0 ≤ f) : f * max a b = max (f * a) (f * b) := by
  rcases le_total a b with h | h
  · rw [max_eq_right h, max_eq_right (mul_le_mul_of_nonneg_left h hf)]
  · rw [max_eq_left h, max_eq_left (mul_le_mul_of_nonneg_left h hf)]

theorem foldl_min_map_mul (f : ℚ) (hf : 0 ≤ f) (as : List ℚ) :
    ∀ a : ℚ, (as.map (fun x => f * x)).foldl min (f * a) = f * as.foldl min a := by
  induction as with
  | nil => intro a; rfl
  | cons c cs ih =>
    intro a
    simp only [List.map_cons, List.foldl_cons]
    rw [← mul_min_q f a c hf, ih]

theorem foldl_max_map_mul (f : ℚ) (hf : 0 ≤ f) (as : List ℚ) :
    ∀ a : ℚ, (as.map (fun x => f * x)).foldl max (f * a) = f * as.foldl max a := by
  induction as with
  | nil => intro a; rfl
  | cons c cs ih =>
    intro a
    simp only [List.map_cons, List.foldl_cons]
    rw [← mul_max_q f a c hf, ih]

theorem listMin_map_mul (f : ℚ) (hf : 0 ≤ f) (l : List ℚ) :
    listMin (l.map (fun x => f * x)) = f * listMin l := by
  cases l with
  | nil => simp [listMin]
  | cons a as => exact foldl_min_map_mul f hf as a

theorem listMax_map_mul (f : ℚ) (hf : 0 ≤ f) (l : List ℚ) :
    listMax (l.map (fun x => f * x)) = f * listMax l := by
  cases l with
  | nil => simp [listMax]
  | cons a as => exact foldl_max_map_mul f hf as a

theorem comp_sub (a b : Vec3) (ax : Fin 3) :
    (a - b).comp ax = a.comp ax - b.comp ax := by
  fin_cases ax <;> rfl

theorem vecListMin_comp (l : List Vec3) (ax : Fin 3) :
    (vecListMin l).comp ax = listMin (l.map (fun v => v.comp ax)) := by
  fin_cases ax <;> simp [vecListMin, Vec3.comp]

theorem vecListMax_comp (l : List Vec3) (ax : Fin 3) :
    (vecListMax l).comp ax = listMax (l.map (fun v => v.comp ax)) := by
  fin_cases ax <;> simp [vecListMax, Vec3.comp]

theorem pmStep_tmin_comp (M : Mat3) (st : PMState) (m : Mesh) (ax : Fin 3) :
    (pmStep M st m).tmin.comp ax =
      min (listMin ((m.getTransformedVertexes M).map (fun v => v.comp ax)))
        (st.tmin.comp ax) := by
  rw [← vecListMin_comp]
  fin_cases ax <;> simp [pmStep, Vec3.comp]

theorem pmStep_tmax_comp (M : Mat3) (st : PMState) (m : Mesh) (ax : Fin 3) :
    (pmStep M st m).tmax.comp ax =
      max (listMax ((m.getTransformedVertexes M).map (fun v => v.comp ax)))
        (st.tmax.comp ax) := by
  rw [← vecListMax_comp]
  fin_cases ax <;> simp [pmStep, Vec3.comp]

theorem pm_fold_tmin_comp (M : Mat3) (ax : Fin 3) (ms : List Mesh) :
    ∀ st : PMState,
      ((ms.foldl (pmStep M) st).tmin).comp ax =
        ms.foldl
          (fun acc m =>
            min (listMin ((m.getTransformedVertexes M).map (fun v => v.comp ax))) acc)
          (st.tmin.comp ax) := by
  induction ms with
  | nil => intro st; rfl
  | cons m ms ih =>
    intro st
    simp only [List.foldl_cons]
    rw [ih, pmStep_tmin_comp]

theorem pm_fold_tmax_comp (M : Mat3) (ax : Fin 3) (ms : List Mesh) :
    ∀ st : PMState,
      ((ms.foldl (pmStep M) st).tmax).comp ax =
        ms.foldl
          (fun acc m =>
            max (listMax ((m.getTransformedVertexes M).map (fun v => v.comp ax))) acc)
          (st.tmax.comp ax) := by
  induction ms with
  | nil => intro st; rfl
  | cons m ms ih =>
    intro st
    simp only [List.foldl_cons]
    rw [ih, pmStep_tmax_comp]

theorem flatten_map_ne {α : Type} (g : α → List ℚ) (x : α) (xs : List α)
    (hx : g x ≠ []) : ((x :: xs).map g).flatten ≠ [] := by
  simp only [List.map_cons, List.flatten_cons]
  intro h
  rcases List.append_eq_nil.mp h with ⟨h1, _⟩
  exact hx h1

theorem fold_min_glue (g : Mesh → List ℚ) (ms : List Mesh) :
    ∀ b : ℚ, ms ≠ [] → (∀ m ∈ ms, g m ≠ []) →
      ms.foldl (fun acc m => min (listMin (g m)) acc) b =
        min b (listMin ((ms.map g).flatten)) := by
  induction ms with
  | nil => intro b h _; exact absurd rfl h
  | cons m ms ih =>
    intro b _ hg
    have hgm : g m ≠ [] := hg m (List.mem_cons_self m ms)
    cases ms with
    | nil =>
      simp only [List.foldl_cons, List.foldl_nil, List.map_cons, List.map_nil,
        List.flatten_cons, List.flatten_nil, List.append_nil]
      exact min_comm _ b
    | cons m2 ms2 =>
      have hne2 : m2 :: ms2 ≠ [] := by simp
      have hg2 : ∀ m' ∈ m2 :: ms2, g m' ≠ [] :=
        fun m' hm' => hg m' (List.mem_cons_of_mem m hm')
      have hfl : ((m2 :: ms2).map g).flatten ≠ [] :=
        flatten_map_ne g m2 ms2 (hg2 m2 (List.mem_cons_self m2 ms2))
      have step : (m :: m2 :: ms2).foldl (fun acc m => min (listMin (g m)) acc) b =
          (m2 :: ms2).foldl (fun acc m => min (listMin (g m)) acc)
            (min (listMin (g m)) b) := rfl
      rw [step, ih (min (listMin (g m)) b) hne2 hg2,
        min_assoc, min_left_comm (listMin (g m)) b _,
        ← listMin_append (g m) _ hgm hfl]
      simp [List.flatten_cons]

theorem fold_max_glue (g : Mesh → List ℚ) (ms : List Mesh) :
    ∀ b : ℚ, ms ≠ [] → (∀ m ∈ ms, g m ≠ []) →
      ms.foldl (fun acc m => max (listMax (g m)) acc) b =
        max b (listMax ((ms.map g).flatten)) := by
  induction ms with
  | nil => intro b h _; exact absurd rfl h
  | cons m ms ih =>
    intro b _ hg
    have hgm : g m ≠ [] := hg m (List.mem_cons_self m ms)
    cases ms with
    | nil =>
      simp only [List.foldl_cons, List.foldl_nil, List.map_cons, List.map_nil,
        List.flatten_cons, List.flatten_nil, List.append_nil]
      exact max_comm _ b
    | cons m2 ms2 =>
      have hne2 : m2 :: ms2 ≠ [] := by simp
      have hg2 : ∀ m' ∈ m2 :: ms2, g m' ≠ [] :=
        fun m' hm' => hg m' (List.mem_cons_of_mem m hm')
      have hfl : ((m2 :: ms2).map g).flatten ≠ [] :=
        flatten_map_ne g m2 ms2 (hg2 m2 (List.mem_cons_self m2 ms2))
      have step : (m :: m2 :: ms2).foldl (fun acc m => max (listMax (g m)) acc) b =
          (m2 :: ms2).foldl (fun acc m => max (listMax (g m)) acc)
            (max (listMax (g m)) b) := rfl
      rw [step, ih (max (listMax (g m)) b) hne2 hg2,
        max_assoc, max_left_comm (listMax (g m)) b _,
        ← listMax_append (g m) _ hgm hfl]
      simp [List.flatten_cons]

theorem pmInit_tmin_comp (ax : Fin 3) : pmInit.tmin.comp ax = bigB := by
  fin_cases ax <;> rfl

theorem pmInit_tmax_comp (ax : Fin 3) : pmInit.tmax.comp ax = -bigB := by
  fin_cases ax <;> rfl

theorem processMatrix_transformedSize (o : PrintableObject) :
    (processMatrix o).transformedSize =
      some ((o.meshList.foldl (pmStep o.matrix) pmInit).tmax -
        (o.meshList.foldl (pmStep o.matrix) pmInit).tmin) := rfl

theorem axCoords_ne (o : PrintableObject) (ax : Fin 3) (hne : o.meshList ≠ [])
    (hme : ∀ m ∈ o.meshList, m.vertexes ≠ []) : axCoords o ax ≠ [] := by
  unfold axCoords
  cases hml : o.meshList with
  | nil => exact absurd hml hne
  | cons m ms =>
    refine flatten_map_ne _ m ms ?_
    simp only [ne_eq, List.map_eq_nil_iff, Mesh.getTransformedVertexes]
    exact hme m (by rw [hml]; exact List.mem_cons_self m ms)

theorem processMatrix_size_comp (o : PrintableObject) (ax : Fin 3)
    (hne : o.meshList ≠ []) (hme : ∀ m ∈ o.meshList, m.vertexes ≠ []) :
    ((processMatrix o).transformedSize.getD ⟨0, 0, 0⟩).comp ax =
      max (-bigB) (listMax (axCoords o ax)) - min bigB (listMin (axCoords o ax)) := by
  have hgm : ∀ m ∈ o.meshList,
      (m.getTransformedVertexes o.matrix).map (fun v => v.comp ax) ≠ [] := by
    intro m hm
    simp only [ne_eq, List.map_eq_nil_iff, Mesh.getTransformedVertexes]
    exact hme m hm
  rw [processMatrix_transformedSize, Option.getD_some, comp_sub,
    pm_fold_tmin_comp, pm_fold_tmax_comp, pmInit_tmin_comp, pmInit_tmax_comp,
    fold_min_glue _ o.meshList bigB hne hgm, fold_max_glue _ o.meshList (-bigB) hne hgm]
  rfl

theorem mulVec_mul (v : Vec3) (a b : Mat3) :
    mulVec v (a.mul b) = mulVec (mulVec v a) b := by
  ext <;> simp [mulVec, Mat3.mul] <;> ring

theorem comp_mulVec_uniform (w : Vec3) (f : ℚ) (ax : Fin 3) :
    (mulVec w (uniformMat f)).comp ax = f * w.comp ax := by
  fin_cases ax <;> simp [mulVec, uniformMat, Vec3.comp] <;> ring

theorem axCoords_scaled (o : PrintableObject) (f : ℚ) (ax : Fin 3) :
    axCoords { o with matrix := o.matrix.mul (uniformMat f) } ax =
      (axCoords o ax).map (fun c => f * c) := by
  unfold axCoords
  dsimp only
  rw [List.map_flatten]
  congr 1
  rw [List.map_map]
  refine List.map_congr_left ?_
  intro m _
  simp only [Function.comp, Mesh.getTransformedVertexes, List.map_map]
  refine List.map_congr_left ?_
  intro v _
  simp only [Function.comp]
  rw [mulVec_mul, comp_mulVec_uniform]

/-- C6: requesting size `value > 0` along an axis with `setSize(value,
axis, uniform=true)` and then reading `getSize()[axis]` yields exactly
`value` (the embedding is exact rational arithmetic, so "within
floating-point tolerance" becomes on-the-nose equality).  The regularity
hypotheses pin the non-degenerate regime the claim presupposes: at least
one mesh, no empty mesh, the cached size agrees with a fresh recompute
(true after any mutator), a strictly positive current extent along the
axis, and all axis coordinates (before and after rescaling) within the
`999999999999` sentinel used to seed the min/max accumulators. -/
theorem setSize_getSize_roundtrip (o : PrintableObject) (value : ℚ) (axis : Fin 3)
    (hne : o.meshList ≠ [])
    (hme : ∀ m ∈ o.meshList, m.vertexes ≠ [])
    (hstored : o.transformedSize = (processMatrix o).transformedSize)
    (hval : 0 < value)
    (hpos : 0 < (o.transformedSize.getD ⟨0, 0, 0⟩).comp axis)
    (hb1 : ∀ c ∈ axCoords o axis, -bigB ≤ c ∧ c ≤ bigB)
    (hb2 : ∀ c ∈ axCoords o axis,
      -bigB ≤ (value / (o.transformedSize.getD ⟨0, 0, 0⟩).comp axis) * c ∧
      (value / (o.transformedSize.getD ⟨0, 0, 0⟩).comp axis) * c ≤ bigB) :
    ((setSize o value axis true).transformedSize.getD ⟨0, 0, 0⟩).comp axis = value := by
  set s : ℚ := (o.transformedSize.getD ⟨0, 0, 0⟩).comp axis with hs
  have hsne : s ≠ 0 := ne_of_gt hpos
  set f : ℚ := value / s with hfdef
  have hfpos : 0 < f := div_pos hval hpos
  have hfne : f ≠ 0 := ne_of_gt hfpos
  have hcs : axCoords o axis ≠ [] := axCoords_ne o axis hne hme
  -- the cached size equals the true vertex extent along the axis
  have hsize : s = listMax (axCoords o axis) - listMin (axCoords o axis) := by
    have h1 := processMatrix_size_comp o axis hne hme
    have hmax : max (-bigB) (listMax (axCoords o axis)) = listMax (axCoords o axis) :=
      max_eq_right (hb1 _ (listMax_mem _ hcs)).1
    have hmin : min bigB (listMin (axCoords o axis)) = listMin (axCoords o axis) :=
      min_eq_right (hb1 _ (listMin_mem _ hcs)).2
    rw [hmax, hmin] at h1
    rw [hs, hstored, h1]
  -- the zero-factor early return does not fire, so setSize recomputes
  have hss : setSize o value axis true =
      processMatrix { o with matrix := o.matrix.mul (uniformMat f) } := by
    show (if f = 0 then o
      else applyMatrix o (if true then uniformMat f else axisMat axis f)) = _
    rw [if_neg hfne]
    rfl
  rw [hss]
  set o2 : PrintableObject := { o with matrix := o.matrix.mul (uniformMat f) } with ho2
  have hne2 : o2.meshList ≠ [] := hne
  have hme2 : ∀ m ∈ o2.meshList, m.vertexes ≠ [] := hme
  rw [processMatrix_size_comp o2 axis hne2 hme2]
  have hsc : axCoords o2 axis = (axCoords o axis).map (fun c => f * c) :=
    axCoords_scaled o f axis
  have hcs2 : axCoords o2 axis ≠ [] := by
    rw [hsc]
    simp only [ne_eq, List.map_eq_nil_iff]
    exact hcs
  have hb2' : ∀ c ∈ axCoords o2 axis, -bigB ≤ c ∧ c ≤ bigB := by
    intro c hc
    rw [hsc] at hc
    obtain ⟨c0, hc0, rfl⟩ := List.mem_map.mp hc
    exact hb2 c0 hc0
  have hmax2 : max (-bigB) (listMax (axCoords o2 axis)) = listMax (axCoords o2 axis) :=
    max_eq_right (hb2' _ (listMax_mem _ hcs2)).1
  have hmin2 : min bigB (listMin (axCoords o2 axis)) = listMin (axCoords o2 axis) :=
    min_eq_right (hb2' _ (listMin_mem _ hcs2)).2
  rw [hmax2, hmin2, hsc, listMax_map_mul f (le_of_lt hfpos), listMin_map_mul f (le_of_lt hfpos),
    ← mul_sub, ← hsize, hfdef]
  exact div_mul_cancel₀ value hsne

/-- C6 witness: on the processed triangle object (cached size (10,10,0))
`setSize(3, axis 0, uniform)` rescales by 3/10 and the recomputed
`getSize()[0]` is exactly 3. -/
theorem setSize_getSize_roundtrip_witness :
    ((setSize triObj 3 0 true).transformedSize.getD ⟨0, 0, 0⟩).comp 0 = 3 :=
  setSize_getSize_roundtrip triObj 3 0
    (of_decide_eq_true (by with_unfolding_all rfl))
    (of_decide_eq_true (by with_unfolding_all rfl))
    (of_decide_eq_true (by with_unfolding_all rfl))
    (of_decide_eq_true (by with_unfolding_all rfl))
    (of_decide_eq_true (by with_unfolding_all rfl))
    (of_decide_eq_true (by with_unfolding_all rfl))
    (of_decide_eq_true (by with_unfolding_all rfl))

end Cura
